import Mathlib

/-!
# Verification of the badminton-club availability core

Shallow embedding of the availability-aggregation and scheduling logic of
the badminton-club web application:

* `src/badminton_club/pages/play.py` — period navigation
  (`get_period_start`, `update_calendar`), interest aggregation
  (`get_calendar_summary`), and the save/delete callbacks
  (`save_recommendation`, `delete_recommendation`);
* `src/badminton_club/pages/home.py` — `get_upcoming_potential_sessions`;
* `src/badminton_club/auth.py` — `AuthManager.verify_credentials` and its
  environment fallback;
* `src/badminton_club/database/models.py` — the `User`, `Location` and
  `PlayRecommendation` tables with the
  `(user_id, date, time_slot, location_id)` uniqueness constraint.

Dates are modelled by their proleptic-Gregorian ordinal (`Int`), the value
Python's `date.toordinal()` returns; ordinal 1 (0001-01-01) is a Monday, so
Python's `date.weekday()` (Monday = 0) is `(ordinal - 1) % 7`.  Database
tables are lists of records; a commit succeeds when storage is up and the
resulting table satisfies the declared constraints, otherwise the session
rolls back.  The fallible query underlying each read path is passed in as
an `Except`, mirroring the `try`/`except` wrappers in the source.
-/

namespace BadmintonClub

/-- Python `date.weekday()` for the date with proleptic ordinal `d`
(Monday = 0 … Sunday = 6; ordinal 1 is a Monday). -/
def weekday (d : Int) : Int := (d - 1) % 7

/-- `get_period_start` (play.py lines 23-27): the Monday that starts the
2-week period containing the reference date:
`reference_date - timedelta(days=reference_date.weekday())`. -/
def get_period_start (reference_date : Int) : Int :=
  reference_date - weekday reference_date

/-- Which component triggered the `update_calendar` callback. -/
inductive Trigger
  | prevBtn
  | nextBtn
  | other
deriving DecidableEq, Repr

/-- The start-date update performed by `update_calendar`
(play.py lines 354-357): the previous/next buttons move the window start by
14 days, any other trigger leaves it unchanged. -/
def update_calendar_start (t : Trigger) (start_date : Int) : Int :=
  match t with
  | .prevBtn => start_date - 14
  | .nextBtn => start_date + 14
  | .other => start_date

/-- The inclusive date window `[start_date, end_date]` displayed by
`update_calendar` (play.py line 359: `end_date = start_date + timedelta(days=13)`). -/
def update_calendar_window (t : Trigger) (start_date : Int) : Int × Int :=
  let s := update_calendar_start t start_date
  (s, s + 13)

/-! ## Data model (database/models.py)

Timestamps (`created_at` / `updated_at`) are set by column defaults and read
by no logic under verification, so they are omitted from the records. -/

/-- A row of the `users` table (models.py lines 42-79). -/
structure User where
  id : Nat
  username : String
  password_hash : String
  email : Option String
  is_active : Bool
deriving DecidableEq, Repr

/-- A row of the `locations` table (models.py lines 82-97). -/
structure Location where
  id : Nat
  name : String
  address : Option String
  is_active : Bool
deriving DecidableEq, Repr

/-- A row of the `play_recommendations` table (models.py lines 100-139),
the spec's AvailabilityEntry. -/
structure PlayRecommendation where
  id : Nat
  user_id : Nat
  location_id : Nat
  date : Int
  time_slot : String
  num_guests : Int
deriving DecidableEq, Repr

/-- The key of the table constraint `uq_user_date_time_location`
(models.py lines 128-136). -/
def entryKey (r : PlayRecommendation) : Nat × Int × String × Nat :=
  (r.user_id, r.date, r.time_slot, r.location_id)

/-- The relational store the pages operate on. `next_id` models the
autoincrement counter of `play_recommendations.id`. -/
structure DB where
  users : List User
  locations : List Location
  recs : List PlayRecommendation
  next_id : Nat
deriving DecidableEq, Repr

/-- The constraints `commit` enforces on `play_recommendations`: the
`(user_id, date, time_slot, location_id)` unique constraint and the two
foreign keys into `locations` and `users` (models.py lines 106-136).
A commit succeeds exactly when the resulting table satisfies them. -/
def DB.ok (db : DB) : Prop :=
  (db.recs.map entryKey).Nodup ∧
  ∀ r ∈ db.recs,
    (∃ l ∈ db.locations, l.id = r.location_id) ∧ (∃ u ∈ db.users, u.id = r.user_id)

instance (db : DB) : Decidable db.ok := by
  unfold DB.ok; infer_instance

/-! ## play.py helpers -/

/-- `get_user_id_by_username` (play.py lines 73-79): first user row matching
the username (no `is_active` filter here); `None` when the query raises
(storage unreachable) or no row matches. -/
def get_user_id_by_username (storage_up : Bool) (db : DB) (username : String) :
    Option Nat :=
  if storage_up then (db.users.find? fun u => u.username = username).map (·.id)
  else none

/-- The rows surviving the bulk delete
`db_session.query(PlayRecommendation).filter(user_id == …, date == …).delete()`
issued by both `save_recommendation` (play.py lines 579-582) and
`delete_recommendation` (play.py lines 630-637). -/
def remainingFor (recs : List PlayRecommendation) (user_id : Nat) (d : Int) :
    List PlayRecommendation :=
  recs.filter fun r => ¬(r.user_id = user_id ∧ r.date = d)

/-- The rows built by the nested `for time_slot in time_slots: for
location_id in location_ids:` loops of `save_recommendation`
(play.py lines 585-596), ids drawn from the autoincrement counter. -/
def mkEntries (user_id : Nat) (d : Int) (g : Int) :
    List (String × Nat) → Nat → List PlayRecommendation
  | [], _ => []
  | (ts, lid) :: rest, nid =>
    { id := nid, user_id := user_id, location_id := lid, date := d,
      time_slot := ts, num_guests := g } :: mkEntries user_id d g rest (nid + 1)

/-- The alert returned by the `save_recommendation` callback, one
constructor per `return` site (play.py lines 556-602). -/
inductive SaveResult
  | noUpdate
  /-- "Please select at least one time slot and one location." (warning) -/
  | emptySelection
  /-- "Please log in to save recommendations." (danger) -/
  | notLoggedIn
  /-- "User not found." (danger) -/
  | userNotFound
  /-- "Saved {count} entries successfully!" (success) -/
  | saved (count : Nat)
  /-- "Error saving entries: …" (danger): the generic `except` branch that
  rolls the transaction back, reached for any commit-time failure. -/
  | saveError
deriving DecidableEq, Repr

/-- The alert color attached to each `save_recommendation` outcome
(`no_update` carries none). -/
def SaveResult.color : SaveResult → Option String
  | .noUpdate => none
  | .emptySelection => some "warning"
  | .notLoggedIn => some "danger"
  | .userNotFound => some "danger"
  | .saved _ => some "success"
  | .saveError => some "danger"

/-- `save_recommendation` (play.py lines 556-602).  Deletes every existing
entry for `(user_id, rec_date)`, inserts one row per `time_slot ×
location_id` pair, then commits; the commit succeeds when storage is up and
the resulting table satisfies the schema constraints, otherwise the session
rolls back and the generic error alert is returned.  `rec_id` (the
`editing-recommendation-id` store) is received but never read. -/
def save_recommendation (storage_up : Bool) (db : DB) (current_user : Option String)
    (n_clicks : Nat) (selected_date : Option Int) (rec_id : Option Nat)
    (time_slots : List String) (location_ids : List Nat)
    (num_guests : Option Int) : DB × SaveResult :=
  match n_clicks, selected_date with
  | 0, _ => (db, .noUpdate)
  | _, none => (db, .noUpdate)
  | _ + 1, some rec_date =>
    if time_slots = [] ∨ location_ids = [] then (db, .emptySelection)
    else
      match current_user with
      | none => (db, .notLoggedIn)
      | some username =>
        match get_user_id_by_username storage_up db username with
        | none => (db, .userNotFound)
        | some user_id =>
          let g := num_guests.getD 0
          let remaining := remainingFor db.recs user_id rec_date
          let new_recs :=
            mkEntries user_id rec_date g (time_slots ×ˢ location_ids) db.next_id
          let candidate : DB :=
            { db with recs := remaining ++ new_recs,
                      next_id := db.next_id + new_recs.length }
          if storage_up ∧ candidate.ok then (candidate, .saved new_recs.length)
          else (db, .saveError)

/-- The alert returned by the `delete_recommendation` callback, one
constructor per `return` site (play.py lines 615-642). -/
inductive DeleteResult
  | noUpdate
  | notLoggedIn
  | userNotFound
  /-- "Deleted {count} entries for this date." (success) -/
  | deleted (count : Nat)
  /-- "Error deleting entries: …" (danger), rollback. -/
  | deleteError
deriving DecidableEq, Repr

/-- `delete_recommendation` (play.py lines 615-642): deletes every entry for
the session user on the selected date and reports the number removed; the
bulk delete raises only when storage is unreachable. -/
def delete_recommendation (storage_up : Bool) (db : DB)
    (current_user : Option String) (n_clicks : Nat)
    (selected_date : Option Int) : DB × DeleteResult :=
  match n_clicks, selected_date with
  | 0, _ => (db, .noUpdate)
  | _, none => (db, .noUpdate)
  | _ + 1, some rec_date =>
    match current_user with
    | none => (db, .notLoggedIn)
    | some username =>
      match get_user_id_by_username storage_up db username with
      | none => (db, .userNotFound)
      | some user_id =>
        let remaining := remainingFor db.recs user_id rec_date
        if storage_up then
          ({ db with recs := remaining }, .deleted (db.recs.length - remaining.length))
        else (db, .deleteError)

/-! ## Read paths: interest aggregation -/

/-- SQL `MAX` over the values of one (non-empty) group; `0` is the
placeholder for the vacuous empty group, which no caller produces. -/
def listMax : List Int → Int
  | [] => 0
  | x :: xs => xs.foldl max x

/-- `get_calendar_summary` (play.py lines 30-70).  The argument `q` is the
outcome of the underlying query: the `except Exception` wrapper turns any
storage failure into the empty dict.  On success: filter to
`start_date ≤ date ≤ end_date`, group by `(date, user_id)` taking
`MAX(num_guests)` (the subquery of lines 42-54), then per date return
`COUNT(user_id) + SUM(guests)` over those groups (lines 57-68). -/
def get_calendar_summary (q : Except String (List PlayRecommendation))
    (start_date end_date : Int) : List (Int × Int) :=
  match q with
  | .error _ => []
  | .ok recs =>
    let in_range := recs.filter fun r => start_date ≤ r.date ∧ r.date ≤ end_date
    let groups := (in_range.map fun r => (r.date, r.user_id)).dedup
    let dates := (in_range.map (·.date)).dedup
    dates.map fun d =>
      let users_d := (groups.filter fun p => p.1 = d).map (·.2)
      let guest_sum := (users_d.map fun u =>
        listMax ((in_range.filter fun r => r.date = d ∧ r.user_id = u).map
          (·.num_guests))).sum
      (d, (users_d.length : Int) + guest_sum)

/-- Lookup in the dict returned by `get_calendar_summary`
(`summaries.get(day_date, 0)` reads it with default 0). -/
def lookupDate (m : List (Int × Int)) (d : Int) : Option Int :=
  (m.find? fun p => p.1 = d).map (·.2)

/-- The distinct users holding an entry on date `d` (spec wording:
"count(distinct userId)" for that date). -/
def usersOnDate (recs : List PlayRecommendation) (d : Int) : List Nat :=
  ((recs.filter fun r => r.date = d).map (·.user_id)).dedup

/-- The spec's "max(numGuests) among each user's entries for that date". -/
def maxGuestsOf (recs : List PlayRecommendation) (d : Int) (u : Nat) : Int :=
  listMax ((recs.filter fun r => r.date = d ∧ r.user_id = u).map (·.num_guests))

/-- The spec's interest formula for date `d`: count of distinct users with
an entry on `d` plus the sum over those users of their per-date max guest
count.  Stated from the spec's words, to be compared with
`get_calendar_summary`. -/
def interestCount (recs : List PlayRecommendation) (d : Int) : Int :=
  (usersOnDate recs d).length +
    ((usersOnDate recs d).map (maxGuestsOf recs d)).sum

/-- `get_upcoming_potential_sessions` (home.py lines 15-50).  `q` is the
outcome of the joined query over the next two weeks; any storage failure is
caught and yields the empty list.  On success: inner-join entries to users,
restrict to `[today, today + 14]`, group by `(date, username)` with
`MAX(num_guests)`, order by date then username, and group the rows into
`sorted(by_date.items())`. -/
def get_upcoming_potential_sessions
    (q : Except String (List PlayRecommendation × List User)) (today : Int) :
    List (Int × List (String × Int)) :=
  match q with
  | .error _ => []
  | .ok (recs, users) =>
    let end_date := today + 14
    let joined := recs.filterMap fun r =>
      (users.find? fun u => u.id = r.user_id).map fun u => (r, u.username)
    let in_range := joined.filter fun p => today ≤ p.1.date ∧ p.1.date ≤ end_date
    let keys := (in_range.map fun p => (p.1.date, p.2)).dedup
    let rows := (keys.map fun k =>
        (k.1, k.2, listMax ((in_range.filter fun p =>
          p.1.date = k.1 ∧ p.2 = k.2).map (·.1.num_guests)))).mergeSort
      fun a b => a.1 < b.1 ∨ (a.1 = b.1 ∧ a.2.1 ≤ b.2.1)
    let dates := ((rows.map (·.1)).dedup).mergeSort fun a b => a ≤ b
    dates.map fun d => (d, (rows.filter fun r => r.1 = d).map fun r => (r.2.1, r.2.2))

/-! ## Authentication (auth.py)

`hashlib.sha256(...).hexdigest()` is external library code; it enters the
embedding as an abstract function argument `sha256_hex`.
`secrets.compare_digest` is behaviourally string equality (its constant-time
execution is a non-functional property). -/

/-- The two environment variables read by the fallback path
(auth.py lines 68-69); `none` models an unset variable. -/
structure AuthEnv where
  admin_username : Option String
  admin_password_hash : Option String
deriving DecidableEq, Repr

/-- `User.check_password` (models.py lines 69-72). -/
def check_password (sha256_hex : String → String) (u : User)
    (password : String) : Bool :=
  u.password_hash = sha256_hex password

/-- `AuthManager.get_user_by_username` (auth.py lines 29-43): the first
active user with the given username; `None` if no row matches or the
database query raises. -/
def get_user_by_username (storage_up : Bool) (users : List User)
    (username : String) : Option User :=
  if storage_up then users.find? fun u => u.username = username ∧ u.is_active
  else none

/-- `AuthManager._verify_fallback_credentials` (auth.py lines 66-80):
environment-based admin check, username defaulting to `"admin"` and the
password hash defaulting to the SHA-256 hash of `"password123"` (Python's
`if not env_hash` also treats an empty string as unset). -/
def verify_fallback_credentials (sha256_hex : String → String) (env : AuthEnv)
    (username password : String) : Bool :=
  let env_username := env.admin_username.getD "admin"
  let env_hash :=
    match env.admin_password_hash with
    | none => sha256_hex "password123"
    | some h => if h = "" then sha256_hex "password123" else h
  (username = env_username) && (sha256_hex password = env_hash)

/-- `AuthManager.verify_credentials` (auth.py lines 45-64): empty username
or password is rejected; when the user lookup yields no user the check
falls back to the environment credentials, otherwise the stored hash is
compared. -/
def verify_credentials (sha256_hex : String → String) (env : AuthEnv)
    (storage_up : Bool) (users : List User) (username password : String) :
    Bool :=
  if username = "" ∨ password = "" then false
  else
    match get_user_by_username storage_up users username with
    | none => verify_fallback_credentials sha256_hex env username password
    | some u => check_password sha256_hex u password

/-! ## Lemmas about the inserted rows -/

theorem mem_mkEntries {uid : Nat} {d : Int} {g : Int} :
    ∀ {pairs : List (String × Nat)} {nid : Nat} {e : PlayRecommendation},
      e ∈ mkEntries uid d g pairs nid →
      e.user_id = uid ∧ e.date = d ∧ e.num_guests = g ∧
        (e.time_slot, e.location_id) ∈ pairs
  | [], _, _, h => by simp [mkEntries] at h
  | (ts, lid) :: rest, nid, e, h => by
    simp only [mkEntries, List.mem_cons] at h
    rcases h with rfl | h
    · exact ⟨rfl, rfl, rfl, by simp⟩
    · obtain ⟨h1, h2, h3, h4⟩ := mem_mkEntries h
      exact ⟨h1, h2, h3, List.mem_cons_of_mem _ h4⟩

theorem mkEntries_exists_of_mem {uid : Nat} {d : Int} {g : Int} :
    ∀ {pairs : List (String × Nat)} {nid : Nat} {ts : String} {lid : Nat},
      (ts, lid) ∈ pairs →
      ∃ e ∈ mkEntries uid d g pairs nid, e.time_slot = ts ∧ e.location_id = lid
  | [], _, _, _, h => by simp at h
  | (a, b) :: rest, nid, ts, lid, h => by
    rcases List.mem_cons.mp h with heq | h
    · obtain ⟨rfl, rfl⟩ := Prod.mk.injEq .. ▸ heq
      exact ⟨_, List.mem_cons_self .., rfl, rfl⟩
    · obtain ⟨e, he, hp⟩ := @mkEntries_exists_of_mem uid d g rest (nid + 1) ts lid h
      exact ⟨e, List.mem_cons_of_mem _ he, hp⟩

theorem mkEntries_length (uid : Nat) (d : Int) (g : Int) :
    ∀ (pairs : List (String × Nat)) (nid : Nat),
      (mkEntries uid d g pairs nid).length = pairs.length
  | [], _ => rfl
  | _ :: rest, nid => by
    simpa [mkEntries] using mkEntries_length uid d g rest (nid + 1)

theorem mkEntries_map_key (uid : Nat) (d : Int) (g : Int) :
    ∀ (pairs : List (String × Nat)) (nid : Nat),
      (mkEntries uid d g pairs nid).map entryKey =
        pairs.map fun p => (uid, d, p.1, p.2)
  | [], _ => rfl
  | _ :: rest, nid => by
    simpa [mkEntries, entryKey] using mkEntries_map_key uid d g rest (nid + 1)

theorem mkEntries_map_proj (uid : Nat) (d : Int) (g : Int) :
    ∀ (pairs : List (String × Nat)) (nid : Nat),
      (mkEntries uid d g pairs nid).map
          (fun e => (e.time_slot, e.location_id, e.num_guests)) =
        pairs.map fun p => (p.1, p.2, g)
  | [], _ => rfl
  | _ :: rest, nid => by
    simpa [mkEntries] using mkEntries_map_proj uid d g rest (nid + 1)

theorem mkEntries_filter_key (uid : Nat) (d : Int) (g : Int)
    (pairs : List (String × Nat)) (nid : Nat) :
    (mkEntries uid d g pairs nid).filter
        (fun r => r.user_id = uid ∧ r.date = d) = mkEntries uid d g pairs nid := by
  rw [List.filter_eq_self]
  intro e he
  obtain ⟨h1, h2, -, -⟩ := mem_mkEntries he
  simp [h1, h2]

theorem mkEntries_filter_not_key (uid : Nat) (d : Int) (g : Int)
    (pairs : List (String × Nat)) (nid : Nat) :
    (mkEntries uid d g pairs nid).filter
        (fun r => ¬(r.user_id = uid ∧ r.date = d)) = [] := by
  rw [List.filter_eq_nil_iff]
  intro e he
  obtain ⟨h1, h2, -, -⟩ := mem_mkEntries he
  simp [h1, h2]

/-! ## Lemmas about the bulk delete -/

theorem remainingFor_filter_key (recs : List PlayRecommendation)
    (uid : Nat) (d : Int) :
    (remainingFor recs uid d).filter (fun r => r.user_id = uid ∧ r.date = d) =
      [] := by
  rw [List.filter_eq_nil_iff]
  intro e he
  have h2 := (List.mem_filter.mp he).2
  simp at h2 ⊢
  tauto

theorem remainingFor_filter_not_key (recs : List PlayRecommendation)
    (uid : Nat) (d : Int) :
    (remainingFor recs uid d).filter (fun r => ¬(r.user_id = uid ∧ r.date = d)) =
      remainingFor recs uid d := by
  rw [List.filter_eq_self]
  intro e he
  exact (List.mem_filter.mp he).2

theorem remainingFor_append (l₁ l₂ : List PlayRecommendation)
    (uid : Nat) (d : Int) :
    remainingFor (l₁ ++ l₂) uid d = remainingFor l₁ uid d ++ remainingFor l₂ uid d :=
  List.filter_append ..

/-- Rows of a different user survive the bulk delete untouched. -/
theorem remainingFor_filter_user (recs : List PlayRecommendation)
    {uid other : Nat} (d : Int) (h : other ≠ uid) :
    (remainingFor recs uid d).filter (fun r => r.user_id = other) =
      recs.filter (fun r => r.user_id = other) := by
  unfold remainingFor
  rw [List.filter_filter]
  apply List.filter_congr
  intro r _
  by_cases hr : r.user_id = other
  · simp [hr, h]
  · simp [hr]

/-! ## Generic list lemmas -/

theorem listMax_foldl_const {c : Int} :
    ∀ {xs : List Int}, (∀ x ∈ xs, x = c) → xs.foldl max c = c
  | [], _ => rfl
  | y :: t, h => by
    have hy : y = c := h y (by simp)
    have ht : ∀ x ∈ t, x = c := fun x hx => h x (by simp [hx])
    simp only [List.foldl_cons, hy, max_self]
    exact listMax_foldl_const ht

theorem listMax_const {c : Int} {xs : List Int} (h0 : xs ≠ [])
    (h : ∀ x ∈ xs, x = c) : listMax xs = c := by
  match xs, h0 with
  | y :: t, _ =>
    have hy : y = c := h y (by simp)
    subst hy
    exact listMax_foldl_const fun x hx => h x (by simp [hx])

theorem dedup_const {α : Type _} [DecidableEq α] {b : α} :
    ∀ {vs : List α}, vs ≠ [] → (∀ x ∈ vs, x = b) → vs.dedup = [b]
  | [], h, _ => absurd rfl h
  | x :: t, _, h => by
    have hx : x = b := h x (by simp)
    subst hx
    match t, h with
    | [], _ => simp
    | y :: t', h =>
      have hy : y = x := h y (by simp)
      have hmem : x ∈ y :: t' := by simp [hy]
      rw [List.dedup_cons_of_mem hmem]
      exact dedup_const (by simp) fun z hz => h z (by simp [hz])

theorem dedup_const_append {α : Type _} [DecidableEq α] {a b : α}
    (hab : a ≠ b) :
    ∀ {us : List α} {vs : List α}, us ≠ [] → (∀ x ∈ us, x = a) →
      vs ≠ [] → (∀ x ∈ vs, x = b) → (us ++ vs).dedup = [a, b]
  | [], _, h, _, _, _ => absurd rfl h
  | x :: t, vs, _, hu, hv0, hv => by
    have hx : x = a := hu x (by simp)
    subst hx
    match t with
    | [] =>
      have hnot : x ∉ vs := fun hmem => hab (hv x hmem)
      simpa [List.dedup_cons_of_not_mem hnot] using dedup_const hv0 hv
    | y :: t' =>
      have hy : y = x := hu y (by simp)
      have hmem : x ∈ (y :: t') ++ vs := by simp [hy]
      rw [List.cons_append, List.dedup_cons_of_mem hmem]
      exact dedup_const_append hab (by simp)
        (fun z hz => hu z (by simp [hz])) hv0 hv

theorem find?_map_pair {α β : Type _} [DecidableEq α] (f : α → β) (d : α) :
    ∀ (l : List α),
      ((l.map fun x => (x, f x)).find? fun p => p.1 = d) =
        if d ∈ l then some (d, f d) else none
  | [] => by simp
  | a :: t => by
    by_cases h : a = d
    · subst h
      simp [List.find?_cons]
    · rw [List.map_cons, List.find?_cons]
      simp only [h, decide_False]
      rw [find?_map_pair f d t]
      simp [Ne.symm h]

theorem dedup_filter_map_snd {α β : Type _} [DecidableEq α] [DecidableEq β]
    (d : α) :
    ∀ (l : List (α × β)),
      ((l.dedup.filter fun p => p.1 = d).map Prod.snd) =
        ((l.filter fun p => p.1 = d).map Prod.snd).dedup
  | [] => by simp
  | (a, b) :: t => by
    by_cases hmem : (a, b) ∈ t
    · rw [List.dedup_cons_of_mem hmem]
      by_cases h : a = d
      · subst h
        have hb : b ∈ (t.filter fun p => p.1 = a).map Prod.snd :=
          List.mem_map.mpr ⟨(a, b), List.mem_filter.mpr ⟨hmem, by simp⟩, rfl⟩
        rw [List.filter_cons_of_pos (by simp), List.map_cons,
          List.dedup_cons_of_mem hb]
        exact dedup_filter_map_snd a t
      · rw [List.filter_cons_of_neg (by simp [h])]
        exact dedup_filter_map_snd d t
    · rw [List.dedup_cons_of_not_mem hmem]
      by_cases h : a = d
      · subst h
        have hb : b ∉ (t.filter fun p => p.1 = a).map Prod.snd := by
          intro hb
          obtain ⟨⟨a', b'⟩, hmem', hsnd⟩ := List.mem_map.mp hb
          obtain ⟨hmem'', hfst⟩ := List.mem_filter.mp hmem'
          simp only at hsnd
          have : a' = a := by simpa using hfst
          subst this; subst hsnd
          exact hmem hmem''
        rw [List.filter_cons_of_pos (by simp), List.filter_cons_of_pos (by simp),
          List.map_cons, List.map_cons, List.dedup_cons_of_not_mem hb]
        rw [dedup_filter_map_snd a t]
      · rw [List.filter_cons_of_neg (by simp [h]),
          List.filter_cons_of_neg (by simp [h])]
        exact dedup_filter_map_snd d t

/-! ## The success path of `save_recommendation` -/

/-- The delete-then-insert table passes the commit-time constraint check
when the pre-state did, the slot and location selections are duplicate-free,
and every selected location and the acting user exist. -/
theorem replace_ok {db : DB} {uid : Nat} {d : Int} {g : Int}
    {S : List String} {L : List Nat} (nid nid' : Nat)
    (hwf : db.ok) (hSnd : S.Nodup) (hLnd : L.Nodup)
    (hloc : ∀ lid ∈ L, ∃ loc ∈ db.locations, loc.id = lid)
    (huid : ∃ u ∈ db.users, u.id = uid) :
    DB.ok { db with
      recs := remainingFor db.recs uid d ++ mkEntries uid d g (S ×ˢ L) nid,
      next_id := nid' } := by
  constructor
  · rw [List.map_append, List.nodup_append]
    refine ⟨?_, ?_, ?_⟩
    · exact List.Nodup.sublist
        (List.Sublist.map entryKey (List.filter_sublist _)) hwf.1
    · rw [mkEntries_map_key]
      refine List.Nodup.map ?_ (List.Nodup.product hSnd hLnd)
      intro p q h
      simp only [Prod.mk.injEq] at h
      exact Prod.ext h.2.2.1 h.2.2.2
    · rw [mkEntries_map_key, List.disjoint_left]
      intro k hk hk2
      obtain ⟨r, hr, rfl⟩ := List.mem_map.mp hk
      obtain ⟨p, -, hkey⟩ := List.mem_map.mp hk2
      unfold entryKey at hkey
      simp only [Prod.mk.injEq] at hkey
      have h2 := (List.mem_filter.mp hr).2
      simp only [decide_eq_true_eq] at h2
      exact h2 ⟨hkey.1.symm, hkey.2.1.symm⟩
  · intro r hr
    rcases List.mem_append.mp hr with h | h
    · exact hwf.2 r (List.mem_of_mem_filter h)
    · obtain ⟨h1, h2, -, h4⟩ := mem_mkEntries h
      refine ⟨?_, ?_⟩
      · exact hloc r.location_id (List.mem_product.mp h4).2
      · rw [h1]; exact huid

/-- The user lookup resolves to a row of the `users` table. -/
theorem get_user_id_mem {db : DB} {name : String} {uid : Nat}
    (h : get_user_id_by_username true db name = some uid) :
    ∃ u ∈ db.users, u.id = uid := by
  unfold get_user_id_by_username at h
  rw [if_pos rfl] at h
  cases hfind : db.users.find? fun u => decide (u.username = name) with
  | none => rw [hfind] at h; simp at h
  | some u =>
    rw [hfind] at h
    simp only [Option.map_some', Option.some.injEq] at h
    exact ⟨u, List.mem_of_find?_eq_some hfind, h⟩

/-- Characterization of a successful `save_recommendation` call: valid click
and date, non-empty duplicate-free selections, resolvable user, existing
locations, consistent pre-state.  The call deletes exactly the
`(user, date)` rows and inserts the Cartesian product, reporting its size. -/
theorem save_recommendation_success
    {db : DB} {name : String} {uid : Nat} {d : Int} (rid : Option Nat)
    {S : List String} {L : List Nat} (g : Int) (n : Nat)
    (hwf : db.ok)
    (huser : get_user_id_by_username true db name = some uid)
    (hS : S ≠ []) (hL : L ≠ []) (hSnd : S.Nodup) (hLnd : L.Nodup)
    (hloc : ∀ lid ∈ L, ∃ loc ∈ db.locations, loc.id = lid) :
    save_recommendation true db (some name) (n + 1) (some d) rid S L (some g) =
      ({ db with
          recs := remainingFor db.recs uid d ++
            mkEntries uid d g (S ×ˢ L) db.next_id,
          next_id := db.next_id + (S ×ˢ L).length },
        .saved ((S ×ˢ L).length)) := by
  have hok := replace_ok (g := g) (d := d) db.next_id
    (db.next_id + (S ×ˢ L).length) hwf hSnd hLnd hloc (get_user_id_mem huser)
  simp only [save_recommendation]
  rw [if_neg (by simp [hS, hL])]
  rw [huser]
  simp only [Option.getD_some, mkEntries_length]
  rw [if_pos ⟨trivial, hok⟩]

/-- In the delete-then-insert table, the rows keyed `(uid, d)` are exactly
the freshly inserted ones. -/
theorem replace_filter_key (recs : List PlayRecommendation) (uid : Nat)
    (d : Int) (g : Int) (pairs : List (String × Nat)) (nid : Nat) :
    (remainingFor recs uid d ++ mkEntries uid d g pairs nid).filter
        (fun r => r.user_id = uid ∧ r.date = d) = mkEntries uid d g pairs nid := by
  rw [List.filter_append, remainingFor_filter_key, mkEntries_filter_key,
    List.nil_append]

/-- In the delete-then-insert table, the rows not keyed `(uid, d)` are
exactly the survivors of the delete. -/
theorem replace_filter_not_key (recs : List PlayRecommendation) (uid : Nat)
    (d : Int) (g : Int) (pairs : List (String × Nat)) (nid : Nat) :
    (remainingFor recs uid d ++ mkEntries uid d g pairs nid).filter
        (fun r => ¬(r.user_id = uid ∧ r.date = d)) = remainingFor recs uid d := by
  rw [List.filter_append, remainingFor_filter_not_key, mkEntries_filter_not_key,
    List.append_nil]

/-- A second bulk delete for the same `(uid, d)` removes exactly the rows
the previous replace inserted. -/
theorem remainingFor_replace (recs : List PlayRecommendation) (uid : Nat)
    (d : Int) (g : Int) (pairs : List (String × Nat)) (nid : Nat) :
    remainingFor (remainingFor recs uid d ++ mkEntries uid d g pairs nid) uid d =
      remainingFor recs uid d :=
  replace_filter_not_key recs uid d g pairs nid

/-- Every run of `save_recommendation` either leaves the store untouched
without reporting success, or (storage up, user resolved) commits the
delete-then-insert table, which then satisfies the schema constraints. -/
theorem save_recommendation_shape (su : Bool) (db : DB) (cu : Option String)
    (n : Nat) (sd : Option Int) (rid : Option Nat) (S : List String)
    (L : List Nat) (g : Option Int) :
    ((save_recommendation su db cu n sd rid S L g).1 = db ∧
      ∀ c, (save_recommendation su db cu n sd rid S L g).2 ≠ .saved c) ∨
    (su = true ∧ ∃ name uid d,
      cu = some name ∧ sd = some d ∧
      get_user_id_by_username true db name = some uid ∧
      (save_recommendation su db cu n sd rid S L g).1 =
        { db with
            recs := remainingFor db.recs uid d ++
              mkEntries uid d (g.getD 0) (S ×ˢ L) db.next_id,
            next_id := db.next_id + (S ×ˢ L).length } ∧
      ((save_recommendation su db cu n sd rid S L g).1).ok) := by
  cases n with
  | zero =>
    have he : save_recommendation su db cu 0 sd rid S L g = (db, .noUpdate) := by
      simp [save_recommendation]
    rw [he]; exact Or.inl ⟨rfl, by simp⟩
  | succ m =>
    cases sd with
    | none =>
      have he : save_recommendation su db cu (m + 1) none rid S L g =
          (db, .noUpdate) := by
        simp [save_recommendation]
      rw [he]; exact Or.inl ⟨rfl, by simp⟩
    | some d =>
      by_cases hSL : S = [] ∨ L = []
      · have he : save_recommendation su db cu (m + 1) (some d) rid S L g =
            (db, .emptySelection) := by
          simp only [save_recommendation]
          rw [if_pos hSL]
        rw [he]; exact Or.inl ⟨rfl, by simp⟩
      · cases cu with
        | none =>
          have he : save_recommendation su db none (m + 1) (some d) rid S L g =
              (db, .notLoggedIn) := by
            simp only [save_recommendation]
            rw [if_neg hSL]
          rw [he]; exact Or.inl ⟨rfl, by simp⟩
        | some name =>
          cases huser : get_user_id_by_username su db name with
          | none =>
            have he : save_recommendation su db (some name) (m + 1) (some d)
                rid S L g = (db, .userNotFound) := by
              simp only [save_recommendation]
              rw [if_neg hSL, huser]
            rw [he]; exact Or.inl ⟨rfl, by simp⟩
          | some uid =>
            have hsu : su = true := by
              cases su with
              | true => rfl
              | false => simp [get_user_id_by_username] at huser
            subst hsu
            by_cases hC : DB.ok { db with
                recs := remainingFor db.recs uid d ++
                  mkEntries uid d (g.getD 0) (S ×ˢ L) db.next_id,
                next_id := db.next_id +
                  (mkEntries uid d (g.getD 0) (S ×ˢ L) db.next_id).length }
            · have he : save_recommendation true db (some name) (m + 1) (some d)
                  rid S L g =
                  ({ db with
                      recs := remainingFor db.recs uid d ++
                        mkEntries uid d (g.getD 0) (S ×ˢ L) db.next_id,
                      next_id := db.next_id +
                        (mkEntries uid d (g.getD 0) (S ×ˢ L) db.next_id).length },
                    .saved (mkEntries uid d (g.getD 0) (S ×ˢ L) db.next_id).length) := by
                simp only [save_recommendation]
                rw [if_neg hSL, huser]
                simp only []
                rw [if_pos ⟨trivial, hC⟩]
              refine Or.inr ⟨rfl, name, uid, d, rfl, rfl, huser, ?_, ?_⟩
              · rw [he]; simp only [mkEntries_length]
              · rw [he]; exact hC
            · have he : save_recommendation true db (some name) (m + 1) (some d)
                  rid S L g = (db, .saveError) := by
                simp only [save_recommendation]
                rw [if_neg hSL, huser]
                simp only []
                rw [if_neg (fun h => hC h.2)]
              rw [he]; exact Or.inl ⟨rfl, by simp⟩

/-- Every run of `delete_recommendation` either leaves the store untouched
or performs exactly the `(user, date)` bulk delete. -/
theorem delete_recommendation_shape (su : Bool) (db : DB)
    (cu : Option String) (n : Nat) (sd : Option Int) :
    (delete_recommendation su db cu n sd).1 = db ∨
    ∃ uid d, (delete_recommendation su db cu n sd).1 =
      { db with recs := remainingFor db.recs uid d } := by
  cases n with
  | zero => left; simp [delete_recommendation]
  | succ m =>
    cases sd with
    | none => left; simp [delete_recommendation]
    | some d =>
      cases cu with
      | none => exact Or.inl rfl
      | some name =>
        cases huser : get_user_id_by_username su db name with
        | none =>
          have he : delete_recommendation su db (some name) (m + 1) (some d) =
              (db, .userNotFound) := by
            simp only [delete_recommendation]
            rw [huser]
          rw [he]; exact Or.inl rfl
        | some uid =>
          cases su with
          | false => simp [get_user_id_by_username] at huser
          | true =>
            have he : delete_recommendation true db (some name) (m + 1) (some d) =
                ({ db with recs := remainingFor db.recs uid d },
                  .deleted (db.recs.length - (remainingFor db.recs uid d).length)) := by
              simp only [delete_recommendation]
              rw [huser]
              simp only []
              rw [if_pos trivial]
            rw [he]; exact Or.inr ⟨uid, d, rfl⟩

/-! ## The per-user-per-date guest invariant -/

/-- All of a user's rows for a given date carry the same `num_guests`. -/
def guestsConst (recs : List PlayRecommendation) : Prop :=
  ∀ r1 ∈ recs, ∀ r2 ∈ recs,
    r1.user_id = r2.user_id → r1.date = r2.date → r1.num_guests = r2.num_guests

instance (recs : List PlayRecommendation) : Decidable (guestsConst recs) := by
  unfold guestsConst; infer_instance

theorem guestsConst_filter {recs : List PlayRecommendation}
    (h : guestsConst recs) (p : PlayRecommendation → Bool) :
    guestsConst (recs.filter p) := fun r1 h1 r2 h2 =>
  h r1 (List.mem_of_mem_filter h1) r2 (List.mem_of_mem_filter h2)

/-- The delete-then-insert table keeps the guest invariant: survivors keep
it from the pre-state, inserted rows share one value, and no survivor has
the inserted rows' `(user, date)` key. -/
theorem guestsConst_replace {recs : List PlayRecommendation}
    (h : guestsConst recs) (uid : Nat) (d : Int) (g : Int)
    (pairs : List (String × Nat)) (nid : Nat) :
    guestsConst (remainingFor recs uid d ++ mkEntries uid d g pairs nid) := by
  intro r1 h1 r2 h2 hu hd
  rcases List.mem_append.mp h1 with ha1 | hb1 <;>
    rcases List.mem_append.mp h2 with ha2 | hb2
  · exact h r1 (List.mem_of_mem_filter ha1) r2 (List.mem_of_mem_filter ha2) hu hd
  · obtain ⟨e1, e2, -, -⟩ := mem_mkEntries hb2
    have hx := (List.mem_filter.mp ha1).2
    simp only [decide_eq_true_eq] at hx
    exact absurd ⟨hu.trans e1, hd.trans e2⟩ hx
  · obtain ⟨e1, e2, -, -⟩ := mem_mkEntries hb1
    have hx := (List.mem_filter.mp ha2).2
    simp only [decide_eq_true_eq] at hx
    exact absurd ⟨hu.symm.trans e1, hd.symm.trans e2⟩ hx
  · exact (mem_mkEntries hb1).2.2.1.trans (mem_mkEntries hb2).2.2.1.symm

/-- The stores reachable through the Recommendation Manager's operations
alone: an initial store with no availability entries, transformed by any
sequence of `save_recommendation` and `delete_recommendation` calls. -/
inductive Reachable : DB → Prop
  | init (users : List User) (locations : List Location) (next_id : Nat) :
      Reachable ⟨users, locations, [], next_id⟩
  | save {db : DB} (h : Reachable db) (su : Bool) (cu : Option String)
      (n : Nat) (sd : Option Int) (rid : Option Nat) (S : List String)
      (L : List Nat) (g : Option Int) :
      Reachable (save_recommendation su db cu n sd rid S L g).1
  | delete {db : DB} (h : Reachable db) (su : Bool) (cu : Option String)
      (n : Nat) (sd : Option Int) :
      Reachable (delete_recommendation su db cu n sd).1

theorem guestsConst_save (su : Bool) (db : DB) (cu : Option String) (n : Nat)
    (sd : Option Int) (rid : Option Nat) (S : List String) (L : List Nat)
    (g : Option Int) (h : guestsConst db.recs) :
    guestsConst (save_recommendation su db cu n sd rid S L g).1.recs := by
  rcases save_recommendation_shape su db cu n sd rid S L g with
    ⟨heq, -⟩ | ⟨-, name, uid, d, -, -, -, heq, -⟩
  · rw [heq]; exact h
  · rw [heq]; exact guestsConst_replace h uid d _ _ _

theorem guestsConst_delete (su : Bool) (db : DB) (cu : Option String)
    (n : Nat) (sd : Option Int) (h : guestsConst db.recs) :
    guestsConst (delete_recommendation su db cu n sd).1.recs := by
  rcases delete_recommendation_shape su db cu n sd with heq | ⟨uid, d, heq⟩
  · rw [heq]; exact h
  · rw [heq]; exact guestsConst_filter h _

theorem reachable_guestsConst {db : DB} (h : Reachable db) :
    guestsConst db.recs := by
  induction h with
  | init users locations next_id => intro r1 h1 r2 h2 hu hd; cases h1
  | save h su cu n sd rid S L g ih => exact guestsConst_save su _ cu n sd rid S L g ih
  | delete h su cu n sd ih => exact guestsConst_delete su _ cu n sd ih

/-! ## Lemmas about the interest aggregation -/

/-- Filtering the in-range rows down to an in-range date is filtering the
whole table down to that date. -/
theorem filter_range_date {s e d : Int} (h1 : s ≤ d) (h2 : d ≤ e)
    (recs : List PlayRecommendation) :
    ((recs.filter fun r => s ≤ r.date ∧ r.date ≤ e).filter
        fun r => r.date = d) = recs.filter fun r => r.date = d := by
  rw [List.filter_filter]
  apply List.filter_congr
  intro r _
  by_cases hr : r.date = d
  · simp only [hr, decide_True, Bool.true_and, decide_eq_true_eq]
    simp [h1, h2]
  · simp [hr]

/-- Same, for the per-user refinement of the date filter. -/
theorem filter_range_date_user {s e d : Int} {u : Nat} (h1 : s ≤ d)
    (h2 : d ≤ e) (recs : List PlayRecommendation) :
    ((recs.filter fun r => s ≤ r.date ∧ r.date ≤ e).filter
        fun r => r.date = d ∧ r.user_id = u) =
      recs.filter fun r => r.date = d ∧ r.user_id = u := by
  rw [List.filter_filter]
  apply List.filter_congr
  intro r _
  by_cases hr : r.date = d
  · by_cases hu : r.user_id = u
    · simp only [hr, hu, decide_True, Bool.and_self, Bool.true_and]
      simp [h1, h2]
    · simp [hr, hu]
  · simp [hr]

/-- The entry the dict built by `get_calendar_summary` holds for an
in-range date with at least one entry is the spec's interest count. -/
theorem get_calendar_summary_lookup (recs : List PlayRecommendation)
    {s e d : Int} (h1 : s ≤ d) (h2 : d ≤ e)
    (hex : ∃ r ∈ recs, r.date = d) :
    lookupDate (get_calendar_summary (.ok recs) s e) d =
      some (interestCount recs d) := by
  unfold get_calendar_summary lookupDate
  simp only []
  rw [find?_map_pair]
  have hdm : d ∈ ((recs.filter fun r => s ≤ r.date ∧ r.date ≤ e).map
      (·.date)).dedup := by
    obtain ⟨r, hr, hrd⟩ := hex
    exact List.mem_dedup.mpr (List.mem_map.mpr
      ⟨r, List.mem_filter.mpr ⟨hr, by simp [hrd, h1, h2]⟩, hrd⟩)
  have husers :
      ((((recs.filter fun r => s ≤ r.date ∧ r.date ≤ e).map
          fun r => (r.date, r.user_id)).dedup.filter fun p => p.1 = d).map
        Prod.snd) = usersOnDate recs d := by
    rw [dedup_filter_map_snd, List.filter_map, List.map_map]
    unfold usersOnDate
    rw [show ((fun p : Int × Nat => decide (p.1 = d)) ∘
        fun r : PlayRecommendation => (r.date, r.user_id)) =
        (fun r : PlayRecommendation => decide (r.date = d)) from rfl]
    rw [filter_range_date h1 h2]
    rfl
  rw [if_pos hdm, Option.map_some']
  congr 1
  simp only []
  rw [husers]
  unfold interestCount
  congr 1
  apply congrArg
  apply List.map_congr_left
  intro u _
  rw [filter_range_date_user h1 h2]
  rfl

/-- Dates with no entry inside the window are absent keys of the dict. -/
theorem get_calendar_summary_absent (recs : List PlayRecommendation)
    (s e d : Int)
    (habs : ∀ r ∈ recs, ¬(r.date = d ∧ s ≤ r.date ∧ r.date ≤ e)) :
    lookupDate (get_calendar_summary (.ok recs) s e) d = none := by
  unfold get_calendar_summary lookupDate
  simp only []
  rw [find?_map_pair]
  rw [if_neg ?_, Option.map_none']
  intro hdm
  obtain ⟨r, hr, hrd⟩ := List.mem_map.mp (List.mem_dedup.mp hdm)
  obtain ⟨hmem, hrange⟩ := List.mem_filter.mp hr
  simp only [decide_eq_true_eq] at hrange
  exact habs r hmem ⟨hrd, hrd ▸ hrange.1, hrd ▸ hrange.2⟩

/-- C8: `get_period_start` returns a Monday `m` with `m ≤ d < m + 7`,
and `m = d - weekday d`; it is a total function on dates (pure, no errors). -/
theorem C8_period_start_monday (d : Int) :
    weekday (get_period_start d) = 0 ∧
    get_period_start d ≤ d ∧ d < get_period_start d + 7 ∧
    get_period_start d = d - weekday d := by
  unfold get_period_start weekday
  omega

/-- C9: the prev/next triggers move the window start by exactly 14 days in
the given direction, advancing next then prev round-trips to the original
start, and the displayed window is always `[start, start + 13]`. -/
theorem C9_advance_fourteen (s : Int) :
    update_calendar_start .nextBtn s = s + 14 ∧
    update_calendar_start .prevBtn s = s - 14 ∧
    update_calendar_start .prevBtn (update_calendar_start .nextBtn s) = s ∧
    (∀ t : Trigger, update_calendar_window t s =
      (update_calendar_start t s, update_calendar_start t s + 13)) := by
  refine ⟨rfl, rfl, by simp [update_calendar_start], fun t => rfl⟩

/-- C1: a successful `save_recommendation` call is a destructive replace:
it deletes every existing entry for `(user, date)` (rows with other keys
survive untouched) and inserts exactly one entry per pair of the Cartesian
product `timeSlots ×ˢ locationIds`, all sharing `numGuests`; consequently
a second call for the same `(user, date)` leaves exactly the second call's
entries, with no duplicates or leftovers from the first. -/
theorem C1_destructive_replace
    {db db1 db2 : DB} {r1 r2 : SaveResult} {name : String} {uid : Nat}
    {d : Int} (rid rid2 : Option Nat) (n n2 : Nat)
    {S1 : List String} {L1 : List Nat} (g1 : Int)
    {S2 : List String} {L2 : List Nat} (g2 : Int)
    (hwf : db.ok)
    (huser : get_user_id_by_username true db name = some uid)
    (hS1 : S1 ≠ []) (hL1 : L1 ≠ []) (hS1nd : S1.Nodup) (hL1nd : L1.Nodup)
    (hloc1 : ∀ lid ∈ L1, ∃ loc ∈ db.locations, loc.id = lid)
    (hS2 : S2 ≠ []) (hL2 : L2 ≠ []) (hS2nd : S2.Nodup) (hL2nd : L2.Nodup)
    (hloc2 : ∀ lid ∈ L2, ∃ loc ∈ db.locations, loc.id = lid)
    (hstep1 : save_recommendation true db (some name) (n + 1) (some d) rid
      S1 L1 (some g1) = (db1, r1))
    (hstep2 : save_recommendation true db1 (some name) (n2 + 1) (some d) rid2
      S2 L2 (some g2) = (db2, r2)) :
    (r1 = .saved (S1.length * L1.length) ∧
      (db1.recs.filter fun r => r.user_id = uid ∧ r.date = d).map
          (fun e => (e.time_slot, e.location_id, e.num_guests)) =
        (S1 ×ˢ L1).map (fun p => (p.1, p.2, g1)) ∧
      (db1.recs.filter fun r => ¬(r.user_id = uid ∧ r.date = d)) =
        remainingFor db.recs uid d) ∧
    (r2 = .saved (S2.length * L2.length) ∧
      (db2.recs.filter fun r => r.user_id = uid ∧ r.date = d).map
          (fun e => (e.time_slot, e.location_id, e.num_guests)) =
        (S2 ×ˢ L2).map (fun p => (p.1, p.2, g2)) ∧
      (db2.recs.filter fun r => ¬(r.user_id = uid ∧ r.date = d)) =
        remainingFor db.recs uid d) := by
  have h1 := save_recommendation_success (d := d) rid g1 n hwf huser hS1 hL1
    hS1nd hL1nd hloc1
  rw [h1, Prod.mk.injEq] at hstep1
  obtain ⟨hdb1, hr1⟩ := hstep1
  subst hdb1
  subst hr1
  have hok1 := @replace_ok db uid d g1 S1 L1 db.next_id
    (db.next_id + (S1 ×ˢ L1).length) hwf hS1nd hL1nd hloc1
    (get_user_id_mem huser)
  have h2 := save_recommendation_success (d := d) rid2 g2 n2 hok1 huser hS2
    hL2 hS2nd hL2nd hloc2
  rw [h2, Prod.mk.injEq] at hstep2
  obtain ⟨hdb2, hr2⟩ := hstep2
  subst hdb2
  subst hr2
  refine ⟨⟨?_, ?_, ?_⟩, ?_, ?_, ?_⟩
  · rw [List.length_product]
  · simp only []
    rw [replace_filter_key, mkEntries_map_proj]
  · simp only []
    rw [replace_filter_not_key]
  · rw [List.length_product]
  · simp only []
    rw [replace_filter_key, mkEntries_map_proj]
  · simp only []
    rw [replace_filter_not_key]
    exact remainingFor_replace db.recs uid d g1 (S1 ×ˢ L1) db.next_id

/-- Concrete store for C1: one user, two locations. -/
def dbC1 : DB :=
  ⟨[⟨1, "alice", "h", none, true⟩],
   [⟨1, "Court A", none, true⟩, ⟨2, "Court B", none, true⟩], [], 100⟩

/-- Witness for C1: alice saves 2 slots x 2 locations with 2 guests, then
replaces the same date with 1 slot x 1 location and 0 guests. -/
theorem C1_destructive_replace_witness :
    ((save_recommendation true dbC1 (some "alice") 1 (some 700000) none
        ["07:00-08:00", "08:00-09:00"] [1, 2] (some 2)).2 =
        .saved (["07:00-08:00", "08:00-09:00"].length * [1, 2].length) ∧
      ((save_recommendation true dbC1 (some "alice") 1 (some 700000) none
        ["07:00-08:00", "08:00-09:00"] [1, 2] (some 2)).1.recs.filter
          fun r => r.user_id = 1 ∧ r.date = 700000).map
            (fun e => (e.time_slot, e.location_id, e.num_guests)) =
        (["07:00-08:00", "08:00-09:00"] ×ˢ [1, 2]).map
          (fun p => (p.1, p.2, 2)) ∧
      ((save_recommendation true dbC1 (some "alice") 1 (some 700000) none
        ["07:00-08:00", "08:00-09:00"] [1, 2] (some 2)).1.recs.filter
          fun r => ¬(r.user_id = 1 ∧ r.date = 700000)) =
        remainingFor dbC1.recs 1 700000) ∧
    ((save_recommendation true
      (save_recommendation true dbC1 (some "alice") 1 (some 700000) none
        ["07:00-08:00", "08:00-09:00"] [1, 2] (some 2)).1
      (some "alice") 1 (some 700000) none ["09:00-10:00"] [1] (some 0)).2 =
        .saved (["09:00-10:00"].length * [1].length) ∧
      ((save_recommendation true
      (save_recommendation true dbC1 (some "alice") 1 (some 700000) none
        ["07:00-08:00", "08:00-09:00"] [1, 2] (some 2)).1
      (some "alice") 1 (some 700000) none ["09:00-10:00"] [1] (some 0)).1.recs.filter
          fun r => r.user_id = 1 ∧ r.date = 700000).map
            (fun e => (e.time_slot, e.location_id, e.num_guests)) =
        (["09:00-10:00"] ×ˢ [1]).map (fun p => (p.1, p.2, 0)) ∧
      ((save_recommendation true
      (save_recommendation true dbC1 (some "alice") 1 (some 700000) none
        ["07:00-08:00", "08:00-09:00"] [1, 2] (some 2)).1
      (some "alice") 1 (some 700000) none ["09:00-10:00"] [1] (some 0)).1.recs.filter
          fun r => ¬(r.user_id = 1 ∧ r.date = 700000)) =
        remainingFor dbC1.recs 1 700000) :=
  @C1_destructive_replace dbC1
    (save_recommendation true dbC1 (some "alice") 1 (some 700000) none
      ["07:00-08:00", "08:00-09:00"] [1, 2] (some 2)).1
    (save_recommendation true
      (save_recommendation true dbC1 (some "alice") 1 (some 700000) none
        ["07:00-08:00", "08:00-09:00"] [1, 2] (some 2)).1
      (some "alice") 1 (some 700000) none ["09:00-10:00"] [1] (some 0)).1
    (save_recommendation true dbC1 (some "alice") 1 (some 700000) none
      ["07:00-08:00", "08:00-09:00"] [1, 2] (some 2)).2
    (save_recommendation true
      (save_recommendation true dbC1 (some "alice") 1 (some 700000) none
        ["07:00-08:00", "08:00-09:00"] [1, 2] (some 2)).1
      (some "alice") 1 (some 700000) none ["09:00-10:00"] [1] (some 0)).2
    "alice" 1 700000 none none 0 0
    ["07:00-08:00", "08:00-09:00"] [1, 2] 2 ["09:00-10:00"] [1] 0
    (by decide) (by decide) (by decide) (by decide) (by decide) (by decide)
    (by decide) (by decide) (by decide) (by decide) (by decide) (by decide)
    rfl rfl

/-- C2: over `[startDate, endDate]`, `get_calendar_summary` maps every
in-range date having at least one entry to `count(distinct userId) +
Σ_user max(numGuests)` over that user's entries for the date, and holds no
key for a date with no entry in the range. -/
theorem C2_summary_formula (recs : List PlayRecommendation) (s e : Int) :
    (∀ d : Int, s ≤ d → d ≤ e → (∃ r ∈ recs, r.date = d) →
      lookupDate (get_calendar_summary (.ok recs) s e) d =
        some (interestCount recs d)) ∧
    (∀ d : Int, (∀ r ∈ recs, ¬(r.date = d ∧ s ≤ r.date ∧ r.date ≤ e)) →
      lookupDate (get_calendar_summary (.ok recs) s e) d = none) :=
  ⟨fun _ h1 h2 hex => get_calendar_summary_lookup recs h1 h2 hex,
   fun d habs => get_calendar_summary_absent recs s e d habs⟩

/-- Witness for C2: three entries on one date (two users, guests 2 and 1)
give interest 2 + 2 + 1 = 5; a date without entries is an absent key. -/
theorem C2_summary_formula_witness :
    lookupDate (get_calendar_summary (.ok
      [⟨1, 1, 1, 5, "07:00-08:00", 2⟩, ⟨2, 1, 2, 5, "08:00-09:00", 2⟩,
       ⟨3, 2, 1, 5, "09:00-10:00", 1⟩]) 0 13) 5 = some 5 ∧
    lookupDate (get_calendar_summary (.ok
      [⟨1, 1, 1, 5, "07:00-08:00", 2⟩, ⟨2, 1, 2, 5, "08:00-09:00", 2⟩,
       ⟨3, 2, 1, 5, "09:00-10:00", 1⟩]) 0 13) 6 = none :=
  ⟨(C2_summary_formula _ 0 13).1 5 (by decide) (by decide) (by decide),
   (C2_summary_formula _ 0 13).2 6 (by decide)⟩

/-- C3: every store reachable through the Recommendation Manager's
operations alone satisfies the per-user-per-date guest invariant, and one
`save_recommendation` call preserves it (its inserts share one
`num_guests` value and the matching old rows are deleted first). -/
theorem C3_guest_invariant :
    (∀ db : DB, Reachable db → guestsConst db.recs) ∧
    (∀ (su : Bool) (db : DB) (cu : Option String) (n : Nat)
        (sd : Option Int) (rid : Option Nat) (S : List String)
        (L : List Nat) (g : Option Int),
      guestsConst db.recs →
      guestsConst (save_recommendation su db cu n sd rid S L g).1.recs) :=
  ⟨fun _ h => reachable_guestsConst h,
   fun su _ cu n sd rid S L g h => guestsConst_save su _ cu n sd rid S L g h⟩

/-- Witness for C3 at a concrete reachable store: an initial store
transformed by one save call. -/
theorem C3_guest_invariant_witness :
    guestsConst (save_recommendation true
      ⟨[⟨1, "alice", "h", none, true⟩], [⟨1, "Court A", none, true⟩], [], 0⟩
      (some "alice") 1 (some 5) none ["07:00-08:00"] [1] (some 2)).1.recs :=
  C3_guest_invariant.1 _
    (Reachable.save (Reachable.init _ _ _) true (some "alice") 1 (some 5)
      none ["07:00-08:00"] [1] (some 2))

/-- Concrete store for C4: one user, one location with id 1. -/
def dbC4 : DB :=
  ⟨[⟨1, "alice", "h", none, true⟩], [⟨1, "Court A", none, true⟩], [], 10⟩

/-- Counterexample for C4: saving with the unknown location id 99 changes
nothing, but its alert is *identical* to the alert of a pure storage-level
failure (here a uniqueness violation from a duplicated slot, the spec's
ConflictError): both come out of the same generic `except` branch as
`.saveError` ("Error saving entries: …", danger), so the unknown-location
failure is not a validation error distinguishable from a storage error. -/
theorem C4_counterexample :
    (save_recommendation true dbC4 (some "alice") 1 (some 5) none
        ["07:00-08:00"] [99] (some 0)).1 = dbC4 ∧
    (save_recommendation true dbC4 (some "alice") 1 (some 5) none
        ["07:00-08:00"] [99] (some 0)).2 = .saveError ∧
    (save_recommendation true dbC4 (some "alice") 1 (some 5) none
        ["07:00-08:00"] [99] (some 0)).2 =
      (save_recommendation true dbC4 (some "alice") 1 (some 5) none
        ["07:00-08:00", "07:00-08:00"] [1] (some 0)).2 := by
  decide

/-- C4 (amended): with a click and a selected date, an empty selection is
rejected up front as the validation warning, an unresolvable user is
rejected as "User not found", and a location id referencing no row makes
the commit fail: the transaction is rolled back leaving the store exactly
as before, but it is reported through the generic storage-error alert
(`.saveError`), not as a distinguishable validation error. -/
theorem C4_replace_failures (su : Bool) (db : DB) (name : String) (n : Nat)
    (d : Int) (rid : Option Nat) (S : List String) (L : List Nat)
    (g : Option Int) :
    (S = [] ∨ L = [] →
      save_recommendation su db (some name) (n + 1) (some d) rid S L g =
        (db, .emptySelection)) ∧
    (get_user_id_by_username su db name = none → ¬(S = [] ∨ L = []) →
      save_recommendation su db (some name) (n + 1) (some d) rid S L g =
        (db, .userNotFound)) ∧
    (∀ uid, get_user_id_by_username su db name = some uid →
      ¬(S = [] ∨ L = []) →
      (∃ lid ∈ L, ∀ loc ∈ db.locations, loc.id ≠ lid) →
      save_recommendation su db (some name) (n + 1) (some d) rid S L g =
        (db, .saveError)) := by
  refine ⟨fun hSL => ?_, fun huser hSL => ?_, fun uid huser hSL hbad => ?_⟩
  · simp only [save_recommendation]
    rw [if_pos hSL]
  · simp only [save_recommendation]
    rw [if_neg hSL, huser]
  · have hsu : su = true := by
      cases su with
      | true => rfl
      | false => simp [get_user_id_by_username] at huser
    subst hsu
    have hSne : S ≠ [] := fun h => hSL (Or.inl h)
    obtain ⟨lid, hlid, hnoloc⟩ := hbad
    obtain ⟨ts, hts⟩ := List.exists_mem_of_ne_nil S hSne
    obtain ⟨e, he, -, helid⟩ :=
      @mkEntries_exists_of_mem uid d (g.getD 0) (S ×ˢ L) db.next_id ts lid
        (List.mem_product.mpr ⟨hts, hlid⟩)
    have hC : ¬ DB.ok { db with
        recs := remainingFor db.recs uid d ++
          mkEntries uid d (g.getD 0) (S ×ˢ L) db.next_id,
        next_id := db.next_id +
          (mkEntries uid d (g.getD 0) (S ×ˢ L) db.next_id).length } := by
      intro hok
      obtain ⟨⟨loc, hlocmem, hlocid⟩, -⟩ :=
        hok.2 e (List.mem_append_right _ he)
      rw [helid] at hlocid
      exact hnoloc loc hlocmem hlocid
    simp only [save_recommendation]
    rw [if_neg hSL, huser]
    simp only []
    rw [if_neg (fun h => hC h.2)]

/-- Witness for C4 (amended) at concrete inputs: empty selection, unknown
user, unknown location id 99. -/
theorem C4_replace_failures_witness :
    save_recommendation true dbC4 (some "alice") 1 (some 5) none
      [] [1] (some 0) = (dbC4, .emptySelection) ∧
    save_recommendation true dbC4 (some "carol") 1 (some 5) none
      ["07:00-08:00"] [1] (some 0) = (dbC4, .userNotFound) ∧
    save_recommendation true dbC4 (some "alice") 1 (some 5) none
      ["07:00-08:00"] [99] (some 0) = (dbC4, .saveError) :=
  ⟨(C4_replace_failures true dbC4 "alice" 0 5 none [] [1] (some 0)).1
      (Or.inl rfl),
   (C4_replace_failures true dbC4 "carol" 0 5 none ["07:00-08:00"] [1]
      (some 0)).2.1 (by decide) (by decide),
   (C4_replace_failures true dbC4 "alice" 0 5 none ["07:00-08:00"] [99]
      (some 0)).2.2 1 (by decide) (by decide) (by decide)⟩

/-- Concrete store for C5: alice owns entry 10; bob is logged in. -/
def dbC5 : DB :=
  ⟨[⟨1, "alice", "h", none, true⟩, ⟨2, "bob", "h2", none, true⟩],
   [⟨1, "Court A", none, true⟩],
   [⟨10, 1, 1, 700000, "07:00-08:00", 0⟩], 11⟩

/-- Counterexample for C5: bob invokes the save with alice's entry id 10
as the entry under edit; the claim demands an access-denied failure with
storage unchanged, but the call succeeds (`.saved 1`) and mutates
storage. -/
theorem C5_counterexample :
    (save_recommendation true dbC5 (some "bob") 1 (some 700000) (some 10)
        ["08:00-09:00"] [1] (some 1)).2 = .saved 1 ∧
    (save_recommendation true dbC5 (some "bob") 1 (some 700000) (some 10)
        ["08:00-09:00"] [1] (some 1)).1 ≠ dbC5 := by
  decide

/-- C5 (amended): `save_recommendation` performs no ownership check and
raises no access-denied condition: the entry id under edit is ignored
entirely (the call behaves identically with it and without it), and the
mutation is keyed to the session user's id, so rows of every other user
are left unchanged. -/
theorem C5_no_ownership_check :
    (∀ (su : Bool) (db : DB) (cu : Option String) (n : Nat)
        (sd : Option Int) (rid : Option Nat) (S : List String)
        (L : List Nat) (g : Option Int),
      save_recommendation su db cu n sd rid S L g =
        save_recommendation su db cu n sd none S L g) ∧
    (∀ (su : Bool) (db : DB) (name : String) (uid : Nat) (n : Nat)
        (sd : Option Int) (rid : Option Nat) (S : List String)
        (L : List Nat) (g : Option Int) (other : Nat),
      get_user_id_by_username su db name = some uid → other ≠ uid →
      ((save_recommendation su db (some name) n sd rid S L g).1.recs.filter
          fun r => r.user_id = other) =
        db.recs.filter fun r => r.user_id = other) := by
  refine ⟨fun _ _ _ _ _ _ _ _ _ => rfl,
    fun su db name uid n sd rid S L g other huser hother => ?_⟩
  rcases save_recommendation_shape su db (some name) n sd rid S L g with
    ⟨heq, -⟩ | ⟨hsu, name', uid', d, hname, -, huser', heq, -⟩
  · rw [heq]
  · subst hsu
    have hname' : name' = name := by
      injection hname with h; exact h.symm
    subst hname'
    rw [huser] at huser'
    injection huser' with huid
    subst huid
    rw [heq]
    simp only []
    rw [List.filter_append]
    have hB : ((mkEntries uid d (g.getD 0) (S ×ˢ L) db.next_id).filter
        fun r => r.user_id = other) = [] := by
      rw [List.filter_eq_nil_iff]
      intro e he
      simp [(mem_mkEntries he).1, hother.symm]
    rw [hB, List.append_nil]
    exact remainingFor_filter_user db.recs d hother

/-- Witness for C5 (amended): bob's save (editing alice's entry 10)
leaves alice's rows exactly as they were. -/
theorem C5_no_ownership_check_witness :
    ((save_recommendation true dbC5 (some "bob") 1 (some 700000) (some 10)
        ["08:00-09:00"] [1] (some 1)).1.recs.filter
      fun r => r.user_id = 1) = dbC5.recs.filter fun r => r.user_id = 1 :=
  C5_no_ownership_check.2 true dbC5 "bob" 2 1 (some 700000) (some 10)
    ["08:00-09:00"] [1] (some 1) 1 (by decide) (by decide)

/-- C6: a replace by a second user `uid2` on date `d` leaves every row of
user `uid` unchanged (delete and inserts touch only `uid2`'s rows), and the
summary over `[d, d]` afterwards is the sum of both users' contributions,
`(1 + gu) + (1 + g2)`, in a store where `d`'s entries all belonged to `uid`
with constant guest count `gu`. -/
theorem C6_user_isolation
    {db : DB} {name2 : String} {uid uid2 : Nat} {d : Int}
    (rid : Option Nat) (n : Nat) {S : List String} {L : List Nat}
    (g2 gu : Int)
    (hwf : db.ok)
    (huser2 : get_user_id_by_username true db name2 = some uid2)
    (hne : uid ≠ uid2)
    (hdate : ∀ r ∈ db.recs, r.date = d → r.user_id = uid)
    (hguests : ∀ r ∈ db.recs, r.date = d → r.num_guests = gu)
    (hex : ∃ r ∈ db.recs, r.date = d)
    (hS : S ≠ []) (hL : L ≠ []) (hSnd : S.Nodup) (hLnd : L.Nodup)
    (hloc : ∀ lid ∈ L, ∃ loc ∈ db.locations, loc.id = lid) :
    ((save_recommendation true db (some name2) (n + 1) (some d) rid S L
        (some g2)).1.recs.filter fun r => r.user_id = uid) =
      db.recs.filter (fun r => r.user_id = uid) ∧
    lookupDate (get_calendar_summary
      (.ok (save_recommendation true db (some name2) (n + 1) (some d) rid S L
        (some g2)).1.recs) d d) d = some ((1 + gu) + (1 + g2)) := by
  have h1 := save_recommendation_success (d := d) rid g2 n hwf huser2 hS hL
    hSnd hLnd hloc
  rw [h1]
  simp only []
  have hBne : mkEntries uid2 d g2 (S ×ˢ L) db.next_id ≠ [] := by
    obtain ⟨ts, hts⟩ := List.exists_mem_of_ne_nil S hS
    obtain ⟨lid, hlid⟩ := List.exists_mem_of_ne_nil L hL
    obtain ⟨e, he, -⟩ := @mkEntries_exists_of_mem uid2 d g2 (S ×ˢ L)
      db.next_id ts lid (List.mem_product.mpr ⟨hts, hlid⟩)
    exact List.ne_nil_of_mem he
  constructor
  · rw [List.filter_append]
    have hBf : ((mkEntries uid2 d g2 (S ×ˢ L) db.next_id).filter
        fun r => r.user_id = uid) = [] := by
      rw [List.filter_eq_nil_iff]
      intro e he
      simp [(mem_mkEntries he).1, hne.symm]
    rw [hBf, List.append_nil]
    exact remainingFor_filter_user db.recs d hne
  · have hex2 : ∃ r ∈ remainingFor db.recs uid2 d ++
        mkEntries uid2 d g2 (S ×ˢ L) db.next_id, r.date = d := by
      obtain ⟨ts, hts⟩ := List.exists_mem_of_ne_nil S hS
      obtain ⟨lid, hlid⟩ := List.exists_mem_of_ne_nil L hL
      obtain ⟨e, he, -⟩ := @mkEntries_exists_of_mem uid2 d g2 (S ×ˢ L)
        db.next_id ts lid (List.mem_product.mpr ⟨hts, hlid⟩)
      exact ⟨e, List.mem_append_right _ he, (mem_mkEntries he).2.1⟩
    rw [get_calendar_summary_lookup _ (le_refl d) (le_refl d) hex2]
    have hAdate : ((remainingFor db.recs uid2 d).filter
        fun r => r.date = d) = db.recs.filter fun r => r.date = d := by
      unfold remainingFor
      rw [List.filter_filter]
      apply List.filter_congr
      intro r hr
      by_cases hd' : r.date = d
      · have hu' : r.user_id = uid := hdate r hr hd'
        simp [hd', hu', hne]
      · simp [hd']
    have hBdate : ((mkEntries uid2 d g2 (S ×ˢ L) db.next_id).filter
        fun r => r.date = d) = mkEntries uid2 d g2 (S ×ˢ L) db.next_id := by
      rw [List.filter_eq_self]
      intro e he
      simp [(mem_mkEntries he).2.1]
    have husers : usersOnDate (remainingFor db.recs uid2 d ++
        mkEntries uid2 d g2 (S ×ˢ L) db.next_id) d = [uid, uid2] := by
      unfold usersOnDate
      rw [List.filter_append, hAdate, hBdate, List.map_append]
      apply dedup_const_append hne
      · obtain ⟨r, hr, hrd⟩ := hex
        exact List.ne_nil_of_mem (List.mem_map.mpr
          ⟨r, List.mem_filter.mpr ⟨hr, by simp [hrd]⟩, rfl⟩)
      · intro x hx
        obtain ⟨r, hr, rfl⟩ := List.mem_map.mp hx
        have hd' := (List.mem_filter.mp hr).2
        simp only [decide_eq_true_eq] at hd'
        exact hdate r (List.mem_of_mem_filter hr) hd'
      · intro hnil
        exact hBne (List.map_eq_nil_iff.mp hnil)
      · intro x hx
        obtain ⟨r, hr, rfl⟩ := List.mem_map.mp hx
        exact (mem_mkEntries hr).1
    have hmaxu : maxGuestsOf (remainingFor db.recs uid2 d ++
        mkEntries uid2 d g2 (S ×ˢ L) db.next_id) d uid = gu := by
      unfold maxGuestsOf
      rw [List.filter_append]
      have hBnil : ((mkEntries uid2 d g2 (S ×ˢ L) db.next_id).filter
          fun r => r.date = d ∧ r.user_id = uid) = [] := by
        rw [List.filter_eq_nil_iff]
        intro e he
        simp [(mem_mkEntries he).1, hne.symm]
      have hAeq : ((remainingFor db.recs uid2 d).filter
          fun r => r.date = d ∧ r.user_id = uid) =
          db.recs.filter fun r => r.date = d ∧ r.user_id = uid := by
        unfold remainingFor
        rw [List.filter_filter]
        apply List.filter_congr
        intro r hr
        by_cases hP : r.date = d ∧ r.user_id = uid
        · simp [hP.1, hP.2, hne]
        · simp [hP]
      rw [hAeq, hBnil, List.append_nil]
      apply listMax_const
      · obtain ⟨r, hr, hrd⟩ := hex
        exact List.ne_nil_of_mem (List.mem_map.mpr ⟨r, List.mem_filter.mpr
          ⟨hr, by simp [hrd, hdate r hr hrd]⟩, rfl⟩)
      · intro x hx
        obtain ⟨r, hr, rfl⟩ := List.mem_map.mp hx
        have hh := (List.mem_filter.mp hr).2
        simp only [decide_eq_true_eq] at hh
        exact hguests r (List.mem_of_mem_filter hr) hh.1
    have hmaxu2 : maxGuestsOf (remainingFor db.recs uid2 d ++
        mkEntries uid2 d g2 (S ×ˢ L) db.next_id) d uid2 = g2 := by
      unfold maxGuestsOf
      rw [List.filter_append]
      have hAnil : ((remainingFor db.recs uid2 d).filter
          fun r => r.date = d ∧ r.user_id = uid2) = [] := by
        rw [List.filter_eq_nil_iff]
        intro e he
        have h2 := (List.mem_filter.mp he).2
        simp only [decide_eq_true_eq] at h2 ⊢
        intro hcon
        exact h2 ⟨hcon.2, hcon.1⟩
      have hBeq : ((mkEntries uid2 d g2 (S ×ˢ L) db.next_id).filter
          fun r => r.date = d ∧ r.user_id = uid2) =
          mkEntries uid2 d g2 (S ×ˢ L) db.next_id := by
        rw [List.filter_eq_self]
        intro e he
        simp [(mem_mkEntries he).1, (mem_mkEntries he).2.1]
      rw [hAnil, hBeq, List.nil_append]
      apply listMax_const
      · intro hnil
        exact hBne (List.map_eq_nil_iff.mp hnil)
      · intro x hx
        obtain ⟨r, hr, rfl⟩ := List.mem_map.mp hx
        exact (mem_mkEntries hr).2.2.1
    congr 1
    unfold interestCount
    rw [husers]
    simp only [List.map_cons, List.map_nil, List.sum_cons, List.sum_nil,
      List.length_cons, List.length_nil, hmaxu, hmaxu2]
    push_cast
    ring

/-- Concrete store for C6: alice already has an entry with 2 guests on the
date; bob is about to add his own. -/
def dbC6 : DB :=
  ⟨[⟨1, "alice", "h", none, true⟩, ⟨2, "bob", "h2", none, true⟩],
   [⟨1, "Court A", none, true⟩],
   [⟨10, 1, 1, 700000, "07:00-08:00", 2⟩], 11⟩

/-- Witness for C6: after bob saves one slot with 1 guest, alice's rows
are untouched and the summary shows (1 + 2) + (1 + 1) = 5. -/
theorem C6_user_isolation_witness :
    ((save_recommendation true dbC6 (some "bob") 1 (some 700000) none
        ["08:00-09:00"] [1] (some 1)).1.recs.filter
      fun r => r.user_id = 1) =
      dbC6.recs.filter (fun r => r.user_id = 1) ∧
    lookupDate (get_calendar_summary
      (.ok (save_recommendation true dbC6 (some "bob") 1 (some 700000) none
        ["08:00-09:00"] [1] (some 1)).1.recs) 700000 700000) 700000 =
      some ((1 + 2) + (1 + 1)) :=
  @C6_user_isolation dbC6 "bob" 1 2 700000 none 0 ["08:00-09:00"] [1] 1 2
    (by decide) (by decide) (by decide) (by decide) (by decide) (by decide)
    (by decide) (by decide) (by decide) (by decide) (by decide)

/-- C7: read paths fail soft — on a raised query both `get_calendar_summary`
and `get_upcoming_potential_sessions` return their empty result instead of
propagating — while the write path with storage down leaves the store
unchanged and never reports a (defaulted) success. -/
theorem C7_read_paths_fail_soft :
    (∀ (msg : String) (s e : Int),
      get_calendar_summary (.error msg) s e = []) ∧
    (∀ (msg : String) (today : Int),
      get_upcoming_potential_sessions (.error msg) today = []) ∧
    (∀ (db : DB) (cu : Option String) (n : Nat) (sd : Option Int)
        (rid : Option Nat) (S : List String) (L : List Nat)
        (g : Option Int),
      (save_recommendation false db cu n sd rid S L g).1 = db ∧
      ∀ c, (save_recommendation false db cu n sd rid S L g).2 ≠ .saved c) := by
  refine ⟨fun _ _ _ => rfl, fun _ _ => rfl,
    fun db cu n sd rid S L g => ?_⟩
  rcases save_recommendation_shape false db cu n sd rid S L g with
    ⟨h1, h2⟩ | ⟨hsu, -⟩
  · exact ⟨h1, h2⟩
  · exact Bool.noConfusion hsu

/-- Witness for C7 at concrete inputs, storage down throughout. -/
theorem C7_read_paths_fail_soft_witness :
    get_calendar_summary (.error "database unavailable") 0 13 = [] ∧
    get_upcoming_potential_sessions (.error "database unavailable") 5 = [] ∧
    (save_recommendation false dbC4 (some "alice") 1 (some 5) none
        ["07:00-08:00"] [1] (some 0)).1 = dbC4 ∧
    (save_recommendation false dbC4 (some "alice") 1 (some 5) none
        ["07:00-08:00"] [1] (some 0)).2 ≠ .saved 1 :=
  ⟨C7_read_paths_fail_soft.1 "database unavailable" 0 13,
   C7_read_paths_fail_soft.2.1 "database unavailable" 5,
   (C7_read_paths_fail_soft.2.2 dbC4 (some "alice") 1 (some 5) none
      ["07:00-08:00"] [1] (some 0)).1,
   (C7_read_paths_fail_soft.2.2 dbC4 (some "alice") 1 (some 5) none
      ["07:00-08:00"] [1] (some 0)).2 1⟩

/-- C10: whenever the user lookup yields no user (nonexistent or inactive
username, or database unavailable), `verify_credentials` falls back to the
environment admin credentials — username defaulting to "admin", hash
defaulting to the SHA-256 hash of "password123" — so with defaults it
accepts ("admin", "password123") even though no user row matches. -/
theorem C10_fallback_credentials (sha256_hex : String → String) :
    (∀ (env : AuthEnv) (su : Bool) (users : List User)
        (username password : String),
      ¬(username = "" ∨ password = "") →
      get_user_by_username su users username = none →
      verify_credentials sha256_hex env su users username password =
        verify_fallback_credentials sha256_hex env username password) ∧
    (∀ (su : Bool) (users : List User),
      get_user_by_username su users "admin" = none →
      verify_credentials sha256_hex ⟨none, none⟩ su users "admin"
        "password123" = true) := by
  constructor
  · intro env su users username password hne hnone
    unfold verify_credentials
    rw [if_neg hne, hnone]
  · intro su users hnone
    unfold verify_credentials
    rw [if_neg (by simp), hnone]
    simp only []
    unfold verify_fallback_credentials
    simp

/-- Witness for C10: with storage down (lookup yields none) and default
environment, the fallback accepts admin/password123 for any hash
function. -/
theorem C10_fallback_credentials_witness :
    verify_credentials (fun s => s) ⟨none, none⟩ false [] "admin"
      "password123" = true :=
  (C10_fallback_credentials (fun s => s)).2 false [] (by decide)

end BadmintonClub
